import Mathlib

/-!
Verification of the attendance pipeline of the Presence repository.

The definitions below are a shallow embedding of the Rust sources
`src/core.rs` and `src/state.rs` (the two files hold near-identical copies
of the same pipeline).  Timestamps (`chrono::NaiveDateTime`) are modelled
as whole seconds since the epoch (`Int`); chrono's `date()` is flooring
division by 86400 and `Duration::num_minutes` is division by 60 truncated
toward zero (`Int.tdiv`), matching chrono's semantics.  `f32` point and
penalty values are modelled as rationals.  The per-file participant
`HashMap` is modelled as an insertion-ordered association list (lookup by
key matches the map's content; the unspecified iteration order of
`HashMap::into_values` is made explicit by quantifying over the order in
which a session's participants are handed to the aggregator).  The
cross-session student `HashMap` is modelled as a function from keys to
optional records.  External library parsers (chrono string parsing, Rust
`str::parse`) are abstracted as function parameters.
-/

namespace Presence

/-- Attendance status enum (`core.rs` `AttendanceStatus`). -/
inductive AttendanceStatus where
  | Normal
  | Late
  | Absent
deriving DecidableEq, Repr

/-- One parsed join record (`core.rs` `Participant`); `firstJoin` is the
timestamp in whole seconds since the epoch. -/
structure Participant where
  name : String
  surname : String
  id : String
  email : String
  firstJoin : Int
deriving DecidableEq, Repr

/-- Validated configuration (`core.rs` `ConfigValues`); `classStart` is the
class-start time of day in seconds. -/
structure ConfigValues where
  classStart : Int
  lateMinutes : Int
  absentMinutes : Int
  totalPoints : ℚ
  latePenalty : ℚ
  absentPenalty : ℚ
deriving DecidableEq, Repr

/-- Aggregated per-student record (`core.rs` `StudentRecord`). -/
structure StudentRecord where
  name : String
  surname : String
  id : String
  email : String
  normal : Nat
  late : Nat
  absent : Nat
  score : ℚ
deriving DecidableEq, Repr

/-- Raw string-typed configuration (`core.rs` `AttendanceConfig`). -/
structure AttendanceConfig where
  classStart : String
  classEnd : String
  lateMinutes : String
  absentMinutes : String
  totalPoints : String
  latePenalty : String
  absentPenalty : String
deriving DecidableEq, Repr

/-- External library parsers used by `parse_config`: chrono
`NaiveTime::parse_from_str` with the strict `%H:%M` pattern (the result is
given as seconds of day), Rust `str::parse::<i64>`, and
`str::parse::<f32>` (result as a rational). -/
structure ExternalParsers where
  parseTimeHM : String → Option Int
  parseI64 : String → Option Int
  parseF32 : String → Option ℚ

/-- Splits a character list at every character satisfying `p`, keeping
empty pieces (model of Rust `str::split`). -/
def splitOnPred (p : Char → Bool) : List Char → List (List Char)
  | [] => [[]]
  | c :: rest =>
    match splitOnPred p rest with
    | [] => if p c then [[], []] else [[c]]
    | g :: gs => if p c then [] :: g :: gs else (c :: g) :: gs

/-- Model of Rust `str::trim`: drop whitespace from both ends. -/
def trimChars (l : List Char) : List Char :=
  ((l.dropWhile Char.isWhitespace).reverse.dropWhile Char.isWhitespace).reverse

/-- String wrapper for `trimChars`. -/
def strTrim (s : String) : String := String.mk (trimChars s.data)

/-- Embedding of `parse_time` (`core.rs` lines 116-119): trims the input,
hands it to the `%H:%M` parser, and reports the untrimmed input in the
error message. -/
def parseTimeField (ext : ExternalParsers) (input : String) : Except String Int :=
  match ext.parseTimeHM (strTrim input) with
  | some t => Except.ok t
  | none => Except.error ("Invalid time format: " ++ input ++ ". Use HH:MM.")

/-- Embedding of `parse_float` (`core.rs` lines 121-126). -/
def parseFloatField (ext : ExternalParsers) (input label : String) : Except String ℚ :=
  match ext.parseF32 (strTrim input) with
  | some v => Except.ok v
  | none => Except.error (label ++ " must be a number.")

/-- Embedding of `parse_config` (`core.rs` lines 87-114): fields are parsed
in declaration order, the end-after-start check runs right after the two
times, and the first failure aborts. -/
def parseConfig (ext : ExternalParsers) (config : AttendanceConfig) :
    Except String ConfigValues :=
  match parseTimeField ext config.classStart with
  | Except.error e => Except.error e
  | Except.ok classStart =>
    match parseTimeField ext config.classEnd with
    | Except.error e => Except.error e
    | Except.ok classEnd =>
      if classEnd ≤ classStart then
        Except.error "Class end time must be after the start time."
      else
        match ext.parseI64 (strTrim config.lateMinutes) with
        | none => Except.error "Late minutes must be a number."
        | some lateMinutes =>
          match ext.parseI64 (strTrim config.absentMinutes) with
          | none => Except.error "Absent minutes must be a number."
          | some absentMinutes =>
            match parseFloatField ext config.totalPoints "Total points" with
            | Except.error e => Except.error e
            | Except.ok totalPoints =>
              match parseFloatField ext config.latePenalty "Late penalty" with
              | Except.error e => Except.error e
              | Except.ok latePenalty =>
                match parseFloatField ext config.absentPenalty "Absent penalty" with
                | Except.error e => Except.error e
                | Except.ok absentPenalty =>
                  Except.ok { classStart := classStart, lateMinutes := lateMinutes,
                              absentMinutes := absentMinutes, totalPoints := totalPoints,
                              latePenalty := latePenalty, absentPenalty := absentPenalty }

/-- Embedding of `split_name` (`core.rs` lines 307-318): first
whitespace-delimited token is the given name, the remaining tokens joined
by single spaces form the surname. -/
def splitName (input : String) : String × String :=
  let parts := ((splitOnPred Char.isWhitespace input.data).filter
    (fun w => ¬ w.isEmpty)).map String.mk
  match parts with
  | [] => ("", "")
  | [single] => (single, "")
  | first :: rest => (first, String.intercalate " " rest)

/-- Embedding of `extract_id` (`core.rs` lines 320-322): the part of the
email before the first at sign. -/
def extractId (email : String) : String :=
  String.mk ((splitOnPred (fun c => c == '@') email.data).headD [])

/-- Embedding of `build_key` (`core.rs` lines 324-332): identity token,
else raw email, else "name surname". -/
def buildKey (p : Participant) : String :=
  if ¬ p.id.isEmpty then p.id
  else if ¬ p.email.isEmpty then p.email
  else p.name ++ " " ++ p.surname

/-- Chrono `Duration::num_minutes`: whole minutes truncated toward zero. -/
def numMinutes (secs : Int) : Int := Int.tdiv secs 60

/-- Chrono `NaiveDateTime::date()` as days since the epoch (floor). -/
def dateOf (t : Int) : Int := Int.fdiv t 86400

/-- Embedding of `classify_attendance` (`core.rs` lines 399-413). -/
def classifyAttendance (p : Participant) (classStart : Int) (cfg : ConfigValues) :
    AttendanceStatus :=
  let minutes := max (numMinutes (p.firstJoin - classStart)) 0
  if minutes ≤ cfg.lateMinutes then AttendanceStatus.Normal
  else if minutes ≤ cfg.absentMinutes then AttendanceStatus.Late
  else AttendanceStatus.Absent

/-- Embedding of `apply_status` (`core.rs` lines 415-421). -/
def applyStatus (r : StudentRecord) (status : AttendanceStatus) : StudentRecord :=
  match status with
  | AttendanceStatus.Normal => { r with normal := r.normal + 1 }
  | AttendanceStatus.Late => { r with late := r.late + 1 }
  | AttendanceStatus.Absent => { r with absent := r.absent + 1 }

/-- Embedding of `calculate_score` (`core.rs` lines 423-428). -/
def calculateScore (r : StudentRecord) (cfg : ConfigValues) : ℚ :=
  let deductions := (r.late : ℚ) * cfg.latePenalty + (r.absent : ℚ) * cfg.absentPenalty
  max (cfg.totalPoints - deductions) 0

/-- Rust `str::lines`: strip one trailing carriage return per line. -/
def stripCR (line : List Char) : List Char :=
  if line.getLast? = some '\x0d' then line.dropLast else line

/-- Rust `str::lines` on the lossily decoded text of the file: split at
newlines, drop the final piece when the text ends with a newline, strip
one trailing carriage return per line. -/
def rustLines (s : String) : List String :=
  if s.isEmpty then []
  else
    let parts := (splitOnPred (fun c => c == '\n') s.data).map stripCR
    let parts := if s.data.getLast? = some '\n' then parts.dropLast else parts
    parts.map String.mk

/-- First non-blank line of the buffer, empty when there is none
(`core.rs` lines 190-193). -/
def firstDataLine (s : String) : String :=
  ((rustLines s).find? (fun l => ¬ (strTrim l).isEmpty)).getD ""

/-- Embedding of `detect_delimiter` (`core.rs` lines 188-204), over the
lossily decoded text of the byte buffer. -/
def detectDelimiter (s : String) : Char :=
  let line := firstDataLine s
  let comma := line.toList.count ','
  let tab := line.toList.count '\t'
  let semicolon := line.toList.count ';'
  if tab ≥ comma ∧ tab ≥ semicolon then '\t'
  else if semicolon > comma then ';'
  else ','

/-- Embedding of `parse_participant_row` (`core.rs` lines 261-299); the
chrono datetime parser (`parse_datetime`, two accepted patterns) is
abstracted as `pd`. -/
def parseParticipantRow (pd : String → Option Int) (header record : List String) :
    Except String (Option Participant) :=
  let nameIndex := header.findIdx? (fun c => c == "Name")
  let joinIndex := header.findIdx? (fun c => c == "First Join")
  let emailIndex := header.findIdx? (fun c => c == "Email")
  match nameIndex, joinIndex with
  | some ni, some ji =>
    let name := strTrim ((record.get? ni).getD "")
    if name = "" ∨ name = "Name" then Except.ok none
    else
      let joinValue := strTrim ((record.get? ji).getD "")
      if joinValue = "" then Except.ok none
      else
        let email := (((emailIndex.bind fun i => record.get? i)).map strTrim).getD ""
        match pd joinValue with
        | none => Except.error ("Invalid datetime: " ++ joinValue)
        | some t =>
          let fs := splitName name
          Except.ok (some { name := fs.1, surname := fs.2, id := extractId email,
                            email := email, firstJoin := t })
  | _, _ => Except.ok none

/-- Lookup in the association-list model of the per-file `HashMap`. -/
def lookupKey (m : List (String × Participant)) (k : String) : Option Participant :=
  (m.find? (fun kv => kv.1 == k)).map (fun kv => kv.2)

/-- Replace the value stored at key `k` (the `and_modify` write). -/
def updateKey (m : List (String × Participant)) (k : String) (p : Participant) :
    List (String × Participant) :=
  m.map (fun kv => if kv.1 = k then (k, p) else kv)

/-- Embedding of the dedup `entry` call (`core.rs` lines 155-163): keep the
existing row unless the new row has a strictly earlier join. -/
def dedupInsert (m : List (String × Participant)) (p : Participant) :
    List (String × Participant) :=
  let k := buildKey p
  match lookupKey m k with
  | some existing =>
      if p.firstJoin < existing.firstJoin then updateKey m k p else m
  | none => m ++ [(buildKey p, p)]

/-- Per-file deduplication of a row-ordered list of parsed participants. -/
def dedupParticipants (rows : List Participant) : List (String × Participant) :=
  rows.foldl dedupInsert []

/-- Values of the per-file map, as handed to the aggregator. -/
def sessionParticipants (m : List (String × Participant)) : List Participant :=
  m.map (fun kv => kv.2)

/-- Characterization of a dedup lookup result at key `k`: either no input
row carries the key, or the stored row carries key `k`, occurs in the
input, and has a minimal join time among the input's rows with that
key. -/
def IsMinEntry (l : List Participant) (k : String) : Option Participant → Prop
  | none => ∀ q ∈ l, buildKey q ≠ k
  | some v => buildKey v = k ∧ v ∈ l ∧
      ∀ q ∈ l, buildKey q = k → v.firstJoin ≤ q.firstJoin

/-- Identity-frame invariant of the aggregation: every stored record's
name, surname, id and email are those of the first participant carrying
its key in the stream `pre` of participants processed so far, and keys
never sighted are absent from the map. -/
def IdentityInv (pre : List Participant) (m : String → Option StudentRecord) : Prop :=
  ∀ k : String,
    (∀ r, m k = some r →
      ∃ p, pre.find? (fun q => buildKey q == k) = some p ∧
        r.name = p.name ∧ r.surname = p.surname ∧ r.id = p.id ∧ r.email = p.email) ∧
    (m k = none → pre.find? (fun q => buildKey q == k) = none)

/-- Record loop of `parse_csv_participants` (`core.rs` lines 146-166):
locate the header as the first record containing a cell equal to "Name",
then parse and dedup every later record. -/
def parseRecordsAux (pd : String → Option Int) (header : Option (List String))
    (acc : List (String × Participant)) :
    List (List String) → Except String (List (String × Participant))
  | [] => Except.ok acc
  | r :: rest =>
    match header with
    | none =>
      if r.any (fun c => c == "Name") then
        parseRecordsAux pd (some (r.map strTrim)) acc rest
      else parseRecordsAux pd none acc rest
    | some h =>
      match parseParticipantRow pd h r with
      | Except.error e => Except.error e
      | Except.ok none => parseRecordsAux pd (some h) acc rest
      | Except.ok (some p) => parseRecordsAux pd (some h) (dedupInsert acc p) rest

/-- Embedding of `parse_csv_participants` (`core.rs` lines 136-169) at the
level of already decoded string records. -/
def parseCsvParticipants (pd : String → Option Int) (rows : List (List String)) :
    Except String (List (String × Participant)) :=
  parseRecordsAux pd none [] rows

/-- Header row a file would use: the first record containing a cell equal
to "Name", with its cells trimmed. -/
def findHeader (rows : List (List String)) : Option (List String) :=
  (rows.find? (fun r => r.any (fun c => c == "Name"))).map (fun r => r.map strTrim)

/-- Map of students accumulated across sessions (`core.rs` `students`). -/
def StudentsMap : Type := String → Option StudentRecord

/-- Empty student map. -/
def emptyStudents : StudentsMap := fun _ => none

/-- Fresh record on first sighting (`core.rs` lines 362-371): `absent` is
pre-seeded with the number of sessions already processed. -/
def initRecord (p : Participant) (sessionsProcessed : Nat) : StudentRecord :=
  { name := p.name, surname := p.surname, id := p.id, email := p.email,
    normal := 0, late := 0, absent := sessionsProcessed, score := 0 }

/-- Date anchored to the session's first listed participant (`core.rs`
lines 347-350); the 1970-01-01 fallback is day 0. -/
def sessionDate (ps : List Participant) : Int :=
  match ps.head? with
  | some p => dateOf p.firstJoin
  | none => 0

/-- Class-start instant used for one session (`core.rs` line 351). -/
def sessionClassStart (cfg : ConfigValues) (ps : List Participant) : Int :=
  sessionDate ps * 86400 + cfg.classStart

/-- Per-participant step of the session loop (`core.rs` lines 356-374). -/
def processParticipant (cfg : ConfigValues) (classStart : Int) (sp : Nat)
    (m : StudentsMap) (p : Participant) : StudentsMap :=
  fun k =>
    if k = buildKey p then
      some (applyStatus ((m (buildKey p)).getD (initRecord p sp))
              (classifyAttendance p classStart cfg))
    else m k

/-- Absence backfill for students silent this session (`core.rs` lines
376-380). -/
def backfillAbsent (keys : List String) (m : StudentsMap) : StudentsMap :=
  fun k =>
    match m k with
    | some r => if k ∈ keys then some r else some { r with absent := r.absent + 1 }
    | none => none

/-- One iteration of the session loop of `generate_report` (`core.rs` lines
342-383); empty sessions are skipped without touching the state. -/
def processSession (cfg : ConfigValues) (st : StudentsMap × Nat)
    (ps : List Participant) : StudentsMap × Nat :=
  if ps.isEmpty then st
  else
    let classStart := sessionClassStart cfg ps
    let m1 := ps.foldl (processParticipant cfg classStart st.2) st.1
    let m2 := backfillAbsent (ps.map buildKey) m1
    (m2, st.2 + 1)

/-- Session fold of `generate_report`. -/
def aggregateSessions (cfg : ConfigValues) (sessions : List (List Participant)) :
    StudentsMap × Nat :=
  sessions.foldl (processSession cfg) (emptyStudents, 0)

/-- Final scoring pass (`core.rs` lines 385-387). -/
def scoreStudents (cfg : ConfigValues) (m : StudentsMap) : StudentsMap :=
  fun k => (m k).map (fun r => { r with score := calculateScore r cfg })

/-- Final report (`core.rs` `AttendanceReport`); students are kept as the
key-indexed map (the emitted list is this map's values sorted by surname
then name). -/
structure AttendanceReport where
  students : StudentsMap
  sessions : Nat
  totalPoints : ℚ

/-- Embedding of `generate_report` (`core.rs` lines 334-397) over validated
configuration values. -/
def generateReport (cfg : ConfigValues) (sessions : List (List Participant)) :
    AttendanceReport :=
  let st := aggregateSessions cfg sessions
  { students := scoreStudents cfg st.1, sessions := st.2,
    totalPoints := cfg.totalPoints }

/-- Modelled from the spec: the earliest recorded join time of a session
(the repository instead anchors on the first participant in hash-map
order). -/
def earliestJoin : List Participant → Option Int
  | [] => none
  | p :: rest =>
    match earliestJoin rest with
    | none => some p.firstJoin
    | some t => some (min p.firstJoin t)

/-- Modelled from the spec: "class-start time-of-day combined with the date
component of the earliest recorded join event in that file". -/
def specClassStart (cfg : ConfigValues) (ps : List Participant) : Int :=
  dateOf ((earliestJoin ps).getD 0) * 86400 + cfg.classStart

/-- Concrete validated configuration used by witnesses: class start 13:30
(48600 s), late threshold 10 min, absent threshold 30 min, 10 points,
penalties 0.5 and 1 (the repository's defaults in `state.rs`). -/
def valCfg : ConfigValues :=
  { classStart := 48600, lateMinutes := 10, absentMinutes := 30,
    totalPoints := 10, latePenalty := 1 / 2, absentPenalty := 1 }

/-- Witness participant joining at 13:30:00 on epoch day 0. -/
def partA : Participant :=
  { name := "A", surname := "", id := "a", email := "a@x", firstJoin := 48600 }

/-- Witness participant joining at 13:30:00 on epoch day 1. -/
def partB : Participant :=
  { name := "B", surname := "", id := "b", email := "b@x", firstJoin := 135000 }

/-- Witness participant joining at 13:40:00 on epoch day 0 (same date as
`partA`). -/
def partC : Participant :=
  { name := "C", surname := "", id := "c", email := "c@x", firstJoin := 49200 }

/-- Counters produced for `partA` by a single-session run under `valCfg`,
before the scoring pass. -/
def recA0 : StudentRecord :=
  { name := "A", surname := "", id := "a", email := "a@x",
    normal := 1, late := 0, absent := 0, score := 0 }

/-- Record produced for `partA` by a single-session run under `valCfg`. -/
def recA : StudentRecord :=
  { recA0 with score := calculateScore recA0 valCfg }

/-- Two rows with the same identity key and the same join timestamp but
different display names (a dedup tie). -/
def tieP : Participant :=
  { name := "P", surname := "", id := "s", email := "s@x", firstJoin := 100 }

/-- Same key and timestamp as `tieP`, different name. -/
def tieQ : Participant :=
  { name := "Q", surname := "", id := "s", email := "s@x", firstJoin := 100 }

/-- Dedup pair with distinct join timestamps: the earlier row. -/
def dupEarly : Participant :=
  { name := "E", surname := "", id := "d", email := "d@x", firstJoin := 100 }

/-- Dedup pair with distinct join timestamps: the later row. -/
def dupLate : Participant :=
  { name := "L", surname := "", id := "d", email := "d@x", firstJoin := 200 }

/-- Concrete external parsers for witnesses: the exact strings the witness
configurations use, everything else rejected. -/
def sampleParsers : ExternalParsers :=
  { parseTimeHM := fun s =>
      if s = "13:30" then some 48600 else if s = "15:00" then some 54000 else none
    parseI64 := fun s => if s = "10" then some 10 else if s = "30" then some 30 else none
    parseF32 := fun s =>
      if s = "10" then some 10 else if s = "0.5" then some (1 / 2)
      else if s = "1" then some 1 else none }

/-- Fully valid raw configuration (the defaults in `state.rs`). -/
def rawCfgGood : AttendanceConfig :=
  { classStart := "13:30", classEnd := "15:00", lateMinutes := "10",
    absentMinutes := "30", totalPoints := "10", latePenalty := "0.5",
    absentPenalty := "1" }

/-- Raw configuration whose class-start text is invalid. -/
def rawCfgBadStart : AttendanceConfig :=
  { rawCfgGood with classStart := "bad" }

/-- Raw configuration whose class-end text is invalid. -/
def rawCfgBadEnd : AttendanceConfig :=
  { rawCfgGood with classEnd := "bad" }

/-- Raw configuration whose late-minutes text is invalid. -/
def rawCfgBadLate : AttendanceConfig :=
  { rawCfgGood with lateMinutes := "x" }

/-- Session rows whose header row (the first row containing "Name") lacks
the "First Join" column. -/
def rowsNoJoin : List (List String) :=
  [["junk"], ["Name", "Email"], ["Jane Doe", "jd@u.e"]]

/-- Floored division by 60 of a nonpositive number is nonpositive. -/
theorem fdiv_sixty_nonpos (s : Int) (h : s ≤ 0) : Int.fdiv s 60 ≤ 0 := by
  rcases lt_or_eq_of_le h with h' | h'
  · exact le_of_lt (Int.fdiv_neg' h' (by decide))
  · subst h'
    decide

/-- Truncated (chrono) and floored minute counts agree once clamped at
zero. -/
theorem max_numMinutes_eq_max_fdiv (s : Int) :
    max (numMinutes s) 0 = max (Int.fdiv s 60) 0 := by
  unfold numMinutes
  rcases le_or_lt 0 s with h | h
  · rw [Int.fdiv_eq_tdiv h (by decide)]
  · have h1 : Int.tdiv s 60 ≤ 0 := by
      have hn : s.tdiv 60 = -((-s).tdiv 60) := by rw [← Int.neg_tdiv, neg_neg]
      have h2 : 0 ≤ Int.tdiv (-s) 60 := Int.tdiv_nonneg (by omega) (by decide)
      omega
    have h3 : Int.fdiv s 60 ≤ 0 := fdiv_sixty_nonpos s (le_of_lt h)
    omega

/-- C2: classification computes delta as first-join minus class-start in
whole minutes floored at zero (a join at or before class start gives delta
0), returns Normal iff delta ≤ late_minutes, Late iff
late_minutes < delta ≤ absent_minutes, Absent otherwise; delta equal to
late_minutes is Normal, and when absent_minutes > late_minutes, delta
late_minutes + 1 is Late and delta absent_minutes + 1 is Absent. -/
theorem classify_attendance_spec (p : Participant) (cs : Int) (cfg : ConfigValues) :
    (p.firstJoin ≤ cs → max (Int.fdiv (p.firstJoin - cs) 60) 0 = 0) ∧
    (classifyAttendance p cs cfg = AttendanceStatus.Normal ↔
      max (Int.fdiv (p.firstJoin - cs) 60) 0 ≤ cfg.lateMinutes) ∧
    (classifyAttendance p cs cfg = AttendanceStatus.Late ↔
      (cfg.lateMinutes < max (Int.fdiv (p.firstJoin - cs) 60) 0 ∧
       max (Int.fdiv (p.firstJoin - cs) 60) 0 ≤ cfg.absentMinutes)) ∧
    (classifyAttendance p cs cfg = AttendanceStatus.Absent ↔
      (cfg.lateMinutes < max (Int.fdiv (p.firstJoin - cs) 60) 0 ∧
       cfg.absentMinutes < max (Int.fdiv (p.firstJoin - cs) 60) 0)) ∧
    (max (Int.fdiv (p.firstJoin - cs) 60) 0 = cfg.lateMinutes →
      classifyAttendance p cs cfg = AttendanceStatus.Normal) ∧
    (cfg.lateMinutes < cfg.absentMinutes →
      (max (Int.fdiv (p.firstJoin - cs) 60) 0 = cfg.lateMinutes + 1 →
        classifyAttendance p cs cfg = AttendanceStatus.Late) ∧
      (max (Int.fdiv (p.firstJoin - cs) 60) 0 = cfg.absentMinutes + 1 →
        classifyAttendance p cs cfg = AttendanceStatus.Absent)) := by
  have hcls : classifyAttendance p cs cfg =
      (if max (Int.fdiv (p.firstJoin - cs) 60) 0 ≤ cfg.lateMinutes then
        AttendanceStatus.Normal
       else if max (Int.fdiv (p.firstJoin - cs) 60) 0 ≤ cfg.absentMinutes then
        AttendanceStatus.Late
       else AttendanceStatus.Absent) := by
    unfold classifyAttendance
    rw [max_numMinutes_eq_max_fdiv]
  refine ⟨?_, ?_, ?_, ?_, ?_, ?_⟩
  · intro h
    have h3 : Int.fdiv (p.firstJoin - cs) 60 ≤ 0 := fdiv_sixty_nonpos _ (by omega)
    omega
  · rw [hcls]
    split_ifs with h1 h2
    · exact iff_of_true rfl h1
    · exact iff_of_false (by decide) h1
    · exact iff_of_false (by decide) h1
  · rw [hcls]
    split_ifs with h1 h2
    · exact iff_of_false (by decide) (fun hh => absurd hh.1 (not_lt.mpr h1))
    · exact iff_of_true rfl ⟨not_le.mp h1, h2⟩
    · exact iff_of_false (by decide) (fun hh => h2 hh.2)
  · rw [hcls]
    split_ifs with h1 h2
    · exact iff_of_false (by decide) (fun hh => absurd hh.1 (not_lt.mpr h1))
    · exact iff_of_false (by decide) (fun hh => absurd h2 (not_le.mpr hh.2))
    · exact iff_of_true rfl ⟨not_le.mp h1, not_le.mp h2⟩
  · intro hd
    rw [hcls, if_pos (by omega)]
  · intro hg
    constructor
    · intro hd
      rw [hcls, if_neg (by omega), if_pos (by omega)]
    · intro hd
      rw [hcls, if_neg (by omega), if_neg (by omega)]

/-- Witness for C2: under the default thresholds, a join 10 minutes after
class start is Normal, 11 minutes is Late, 31 minutes is Absent. -/
theorem classify_attendance_spec_witness :
    classifyAttendance partA 48000 valCfg = AttendanceStatus.Normal ∧
    classifyAttendance partA 47940 valCfg = AttendanceStatus.Late ∧
    classifyAttendance partA 46740 valCfg = AttendanceStatus.Absent :=
  ⟨(classify_attendance_spec partA 48000 valCfg).2.1.mpr (by decide),
   ((classify_attendance_spec partA 47940 valCfg).2.2.2.2.2 (by decide)).1 (by decide),
   ((classify_attendance_spec partA 46740 valCfg).2.2.2.2.2 (by decide)).2 (by decide)⟩

/-- C3: every record in the final report carries score
max(0, total_points − late·late_penalty − absent·absent_penalty), and the
score is never negative. -/
theorem report_score_formula (cfg : ConfigValues) (sessions : List (List Participant))
    (k : String) (r : StudentRecord)
    (hr : (generateReport cfg sessions).students k = some r) :
    r.score = max (cfg.totalPoints -
      ((r.late : ℚ) * cfg.latePenalty + (r.absent : ℚ) * cfg.absentPenalty)) 0 ∧
    0 ≤ r.score := by
  have h1 : ∃ r0, (aggregateSessions cfg sessions).1 k = some r0 ∧
      { r0 with score := calculateScore r0 cfg } = r := by
    have h := hr
    simp only [generateReport, scoreStudents, Option.map_eq_some'] at h
    exact h
  obtain ⟨r0, _, hre⟩ := h1
  subst hre
  refine ⟨?_, le_max_right _ _⟩
  simp [calculateScore]

/-- Witness for C3: a one-session run under the default configuration
produces the expected record, whose score is nonnegative. -/
theorem report_score_formula_witness :
    (generateReport valCfg [[partA]]).students "a" = some recA ∧ 0 ≤ recA.score :=
  ⟨by rfl, (report_score_formula valCfg [[partA]] "a" recA (by rfl)).2⟩

/-- C8: delimiter detection counts commas, tabs, and semicolons on the
first non-blank line and returns tab iff the tab count is at least both
other counts, semicolon iff not so and the semicolon count strictly
exceeds the comma count, and comma otherwise. -/
theorem detect_delimiter_spec (s : String) :
    (detectDelimiter s = '\t' ↔
      ((firstDataLine s).toList.count ',' ≤ (firstDataLine s).toList.count '\t' ∧
       (firstDataLine s).toList.count ';' ≤ (firstDataLine s).toList.count '\t')) ∧
    (detectDelimiter s = ';' ↔
      (¬((firstDataLine s).toList.count ',' ≤ (firstDataLine s).toList.count '\t' ∧
         (firstDataLine s).toList.count ';' ≤ (firstDataLine s).toList.count '\t') ∧
       (firstDataLine s).toList.count ',' < (firstDataLine s).toList.count ';')) ∧
    (detectDelimiter s = ',' ↔
      (¬((firstDataLine s).toList.count ',' ≤ (firstDataLine s).toList.count '\t' ∧
         (firstDataLine s).toList.count ';' ≤ (firstDataLine s).toList.count '\t') ∧
       (firstDataLine s).toList.count ';' ≤ (firstDataLine s).toList.count ',')) := by
  have hd : detectDelimiter s =
      (if List.count ',' (firstDataLine s).toList ≤ List.count '\t' (firstDataLine s).toList ∧
          List.count ';' (firstDataLine s).toList ≤ List.count '\t' (firstDataLine s).toList
        then '\t'
        else if List.count ',' (firstDataLine s).toList < List.count ';' (firstDataLine s).toList
        then ';' else ',') := rfl
  rw [hd]
  split_ifs with h1 h2
  · exact ⟨iff_of_true rfl ⟨h1.1, h1.2⟩,
      iff_of_false (by decide) (fun hh => hh.1 ⟨h1.1, h1.2⟩),
      iff_of_false (by decide) (fun hh => hh.1 ⟨h1.1, h1.2⟩)⟩
  · exact ⟨iff_of_false (by decide) (fun hh => h1 ⟨hh.1, hh.2⟩),
      iff_of_true rfl ⟨fun hh => h1 ⟨hh.1, hh.2⟩, h2⟩,
      iff_of_false (by decide) (fun hh => absurd h2 (not_lt.mpr hh.2))⟩
  · exact ⟨iff_of_false (by decide) (fun hh => h1 ⟨hh.1, hh.2⟩),
      iff_of_false (by decide) (fun hh => h2 hh.2),
      iff_of_true rfl ⟨fun hh => h1 ⟨hh.1, hh.2⟩, not_lt.mp h2⟩⟩

/-- Witness for C8: three commas select comma, and a tab/comma tie selects
tab. -/
theorem detect_delimiter_spec_witness :
    detectDelimiter "a,b,c,d" = ',' ∧ detectDelimiter "a,b\tc\td,e" = '\t' :=
  ⟨(detect_delimiter_spec "a,b,c,d").2.2.mpr (by decide),
   (detect_delimiter_spec "a,b\tc\td,e").1.mpr (by decide)⟩

/-- The per-participant fold leaves keys it never touches unchanged. -/
theorem foldl_pp_notmem (cfg : ConfigValues) (cs : Int) (sp : Nat)
    (ps : List Participant) (m : StudentsMap) (k : String)
    (h : k ∉ ps.map buildKey) :
    ps.foldl (processParticipant cfg cs sp) m k = m k := by
  induction ps generalizing m with
  | nil => rfl
  | cons p rest ih =>
    rw [List.map_cons, List.mem_cons, not_or] at h
    rw [List.foldl_cons, ih _ h.2]
    simp [processParticipant, h.1]

/-- Evaluation of the per-participant fold at one key, when the session's
keys are pairwise distinct: the value is determined by the unique
participant carrying that key, if any. -/
theorem foldl_pp_eval (cfg : ConfigValues) (cs : Int) (sp : Nat)
    (ps : List Participant) (m : StudentsMap) (k : String)
    (hnd : (ps.map buildKey).Nodup) :
    ps.foldl (processParticipant cfg cs sp) m k =
      match ps.find? (fun q => buildKey q == k) with
      | some p => some (applyStatus ((m k).getD (initRecord p sp))
          (classifyAttendance p cs cfg))
      | none => m k := by
  induction ps generalizing m with
  | nil => rfl
  | cons p rest ih =>
    rw [List.map_cons, List.nodup_cons] at hnd
    rw [List.foldl_cons]
    by_cases hk : buildKey p = k
    · subst hk
      rw [foldl_pp_notmem cfg cs sp rest _ _ hnd.1,
        List.find?_cons_of_pos _ (by simp)]
      simp [processParticipant]
    · have hne : ¬(k = buildKey p) := fun h => hk h.symm
      have hfm : processParticipant cfg cs sp m p k = m k := by
        simp [processParticipant, hne]
      rw [ih (processParticipant cfg cs sp m p) hnd.2, hfm,
        List.find?_cons_of_neg _ (by simp [hk])]

/-- The per-participant update adds exactly one to the counter total. -/
theorem applyStatus_counters (r : StudentRecord) (s : AttendanceStatus) :
    (applyStatus r s).normal + (applyStatus r s).late + (applyStatus r s).absent
      = r.normal + r.late + r.absent + 1 := by
  cases s <;> simp [applyStatus] <;> omega

/-- Pointwise evaluation of the absence backfill. -/
theorem backfillAbsent_eval (keys : List String) (m : StudentsMap) (k : String) :
    backfillAbsent keys m k =
      match m k with
      | some r => if k ∈ keys then some r else some { r with absent := r.absent + 1 }
      | none => none := rfl

/-- One session step preserves the counters invariant: after the step every
stored record's counter total equals the new session count. -/
theorem processSession_counters (cfg : ConfigValues) (st : StudentsMap × Nat)
    (ps : List Participant) (hnd : (ps.map buildKey).Nodup)
    (hinv : ∀ k r, st.1 k = some r → r.normal + r.late + r.absent = st.2) :
    ∀ k r, (processSession cfg st ps).1 k = some r →
      r.normal + r.late + r.absent = (processSession cfg st ps).2 := by
  intro k r hr
  by_cases hemp : ps.isEmpty = true
  · rw [processSession, if_pos hemp] at hr ⊢
    exact hinv k r hr
  · have hcount : (processSession cfg st ps).2 = st.2 + 1 := by
      rw [processSession, if_neg hemp]
    rw [hcount]
    have hback : (processSession cfg st ps).1 =
        backfillAbsent (ps.map buildKey)
          (ps.foldl (processParticipant cfg (sessionClassStart cfg ps) st.2) st.1) := by
      rw [processSession, if_neg hemp]
    rw [hback] at hr
    have heval := foldl_pp_eval cfg (sessionClassStart cfg ps) st.2 ps st.1 k hnd
    cases hfind : ps.find? (fun q => buildKey q == k) with
    | some p =>
      rw [hfind] at heval
      have hkin : k ∈ ps.map buildKey := by
        have hp := List.find?_some hfind
        have hpm := List.mem_of_find?_eq_some hfind
        simp only [beq_iff_eq] at hp
        exact hp ▸ List.mem_map_of_mem buildKey hpm
      have hb : backfillAbsent (ps.map buildKey)
          (ps.foldl (processParticipant cfg (sessionClassStart cfg ps) st.2) st.1) k =
          some (applyStatus ((st.1 k).getD (initRecord p st.2))
            (classifyAttendance p (sessionClassStart cfg ps) cfg)) := by
        rw [backfillAbsent_eval, heval]
        exact if_pos hkin
      rw [hb] at hr
      have hrr : r = applyStatus ((st.1 k).getD (initRecord p st.2))
          (classifyAttendance p (sessionClassStart cfg ps) cfg) :=
        (Option.some.inj hr).symm
      subst hrr
      rw [applyStatus_counters]
      cases hst : st.1 k with
      | none => simp [hst, initRecord]
      | some r0 => simp only [hst, Option.getD_some]; rw [hinv k r0 hst]
    | none =>
      rw [hfind] at heval
      have hkout : k ∉ ps.map buildKey := by
        intro hkin
        obtain ⟨q, hq, hqk⟩ := List.mem_map.mp hkin
        have := List.find?_eq_none.mp hfind q hq
        simp [hqk] at this
      cases hst : st.1 k with
      | none =>
        have hb : backfillAbsent (ps.map buildKey)
            (ps.foldl (processParticipant cfg (sessionClassStart cfg ps) st.2) st.1) k =
            none := by
          rw [backfillAbsent_eval, heval, hst]
        rw [hb] at hr
        exact absurd hr (by simp)
      | some r1 =>
        have hb : backfillAbsent (ps.map buildKey)
            (ps.foldl (processParticipant cfg (sessionClassStart cfg ps) st.2) st.1) k =
            some { r1 with absent := r1.absent + 1 } := by
          rw [backfillAbsent_eval, heval, hst]
          exact if_neg hkout
        rw [hb] at hr
        have hrr : r = { r1 with absent := r1.absent + 1 } := (Option.some.inj hr).symm
        subst hrr
        have := hinv k r1 hst
        simp only
        omega

/-- The session fold preserves the counters invariant from any starting
state. -/
theorem foldl_sessions_counters (cfg : ConfigValues) :
    ∀ (sessions : List (List Participant)) (st : StudentsMap × Nat),
      (∀ s ∈ sessions, (s.map buildKey).Nodup) →
      (∀ k r, st.1 k = some r → r.normal + r.late + r.absent = st.2) →
      ∀ k r, (sessions.foldl (processSession cfg) st).1 k = some r →
        r.normal + r.late + r.absent = (sessions.foldl (processSession cfg) st).2 := by
  intro sessions
  induction sessions with
  | nil => intro st _ hinv k r hr; exact hinv k r hr
  | cons s rest ih =>
    intro st hnd hinv k r hr
    rw [List.foldl_cons] at hr ⊢
    exact ih (processSession cfg st s) (fun s' hs' => hnd s' (List.mem_cons_of_mem _ hs'))
      (processSession_counters cfg st s (hnd s (List.mem_cons_self _ _)) hinv) k r hr

/-- The session counter counts exactly the non-empty sessions. -/
theorem foldl_sessions_count (cfg : ConfigValues) :
    ∀ (sessions : List (List Participant)) (st : StudentsMap × Nat),
      (sessions.foldl (processSession cfg) st).2 =
        st.2 + (sessions.filter (fun s => !s.isEmpty)).length := by
  intro sessions
  induction sessions with
  | nil => intro st; simp
  | cons s rest ih =>
    intro st
    rw [List.foldl_cons, ih]
    by_cases h : s.isEmpty = true
    · rw [processSession, if_pos h]
      simp [List.filter_cons, h]
    · rw [processSession, if_neg h]
      simp only [List.filter_cons, h]
      simp
      omega

/-- C1: in the final report every student's normal + late + absent equals
the report's session count, which is the number of sessions that yielded
at least one participant (sessions are deduplicated per file, so their
keys are pairwise distinct). -/
theorem report_counters_sum (cfg : ConfigValues) (sessions : List (List Participant))
    (hnd : ∀ s ∈ sessions, (s.map buildKey).Nodup) (k : String) (r : StudentRecord)
    (hr : (generateReport cfg sessions).students k = some r) :
    r.normal + r.late + r.absent = (generateReport cfg sessions).sessions ∧
    (generateReport cfg sessions).sessions =
      (sessions.filter (fun s => !s.isEmpty)).length := by
  have h1 : ∃ r0, (aggregateSessions cfg sessions).1 k = some r0 ∧
      { r0 with score := calculateScore r0 cfg } = r := by
    have h := hr
    simp only [generateReport, scoreStudents, Option.map_eq_some'] at h
    exact h
  obtain ⟨r0, h0, hre⟩ := h1
  have hsum := foldl_sessions_counters cfg sessions (emptyStudents, 0) hnd
      (fun k' r' hr' => absurd hr' (by simp [emptyStudents])) k r0 h0
  constructor
  · rw [← hre]
    simpa using hsum
  · have hc := foldl_sessions_count cfg sessions (emptyStudents, 0)
    simpa [generateReport, aggregateSessions] using hc

/-- Witness for C1: a one-session run gives the expected counter total. -/
theorem report_counters_sum_witness :
    recA.normal + recA.late + recA.absent = (generateReport valCfg [[partA]]).sessions :=
  (report_counters_sum valCfg [[partA]] (by decide) "a" recA (by rfl)).1

/-- Lookup distributes over one association-list cell. -/
theorem lookupKey_cons (a : String) (b : Participant)
    (rest : List (String × Participant)) (k : String) :
    lookupKey ((a, b) :: rest) k = if a = k then some b else lookupKey rest k := by
  unfold lookupKey
  by_cases h : a = k
  · rw [List.find?_cons_of_pos _ (by simp [h]), if_pos h]
    rfl
  · rw [List.find?_cons_of_neg _ (by simp [h]), if_neg h]

/-- Lookup distributes over association-list append. -/
theorem lookupKey_append (m1 m2 : List (String × Participant)) (k : String) :
    lookupKey (m1 ++ m2) k = (lookupKey m1 k).or (lookupKey m2 k) := by
  unfold lookupKey
  rw [List.find?_append]
  cases List.find? (fun kv => kv.1 == k) m1 <;> simp [Option.or]

/-- Replacing the value stored at a key yields the new value there. -/
theorem lookupKey_updateKey_self :
    ∀ (m : List (String × Participant)) (k : String) (p e : Participant),
      lookupKey m k = some e → lookupKey (updateKey m k p) k = some p := by
  intro m
  induction m with
  | nil => intro k p e he; exact absurd he (by simp [lookupKey])
  | cons ab rest ih =>
    intro k p e he
    obtain ⟨a, b⟩ := ab
    show lookupKey ((if a = k then (k, p) else (a, b)) :: updateKey rest k p) k = some p
    rw [lookupKey_cons a b rest k] at he
    by_cases h : a = k
    · rw [if_pos h, lookupKey_cons, if_pos rfl]
    · rw [if_neg h, lookupKey_cons, if_neg h]
      rw [if_neg h] at he
      exact ih k p e he

/-- Replacing the value stored at a key leaves other keys unchanged. -/
theorem lookupKey_updateKey_ne :
    ∀ (m : List (String × Participant)) (k : String) (p : Participant) (q : String),
      q ≠ k → lookupKey (updateKey m k p) q = lookupKey m q := by
  intro m
  induction m with
  | nil => intro k p q _; rfl
  | cons ab rest ih =>
    intro k p q hq
    obtain ⟨a, b⟩ := ab
    show lookupKey ((if a = k then (k, p) else (a, b)) :: updateKey rest k p) q = _
    rw [lookupKey_cons a b rest q]
    by_cases h : a = k
    · rw [if_pos h, lookupKey_cons, if_neg (fun hh => hq hh.symm), ih k p q hq,
        if_neg (fun hh => hq (h ▸ hh).symm)]
    · rw [if_neg h, lookupKey_cons]
      by_cases h2 : a = q
      · rw [if_pos h2, if_pos h2]
      · rw [if_neg h2, if_neg h2, ih k p q hq]

/-- Pointwise effect of one dedup insertion (`core.rs` lines 155-163):
same-key rows merge keeping the strictly earlier join, other keys are
untouched. -/
theorem dedupInsert_lookup (m : List (String × Participant)) (p : Participant)
    (k : String) :
    lookupKey (dedupInsert m p) k =
      if buildKey p = k then
        match lookupKey m k with
        | none => some p
        | some e => if p.firstJoin < e.firstJoin then some p else some e
      else lookupKey m k := by
  have hd : dedupInsert m p =
      match lookupKey m (buildKey p) with
      | some existing =>
        if p.firstJoin < existing.firstJoin then updateKey m (buildKey p) p else m
      | none => m ++ [(buildKey p, p)] := rfl
  rw [hd]
  by_cases hk : buildKey p = k
  · rw [if_pos hk]
    subst hk
    cases hm : lookupKey m (buildKey p) with
    | none =>
      show lookupKey (m ++ [(buildKey p, p)]) (buildKey p) = some p
      rw [lookupKey_append, hm, lookupKey_cons, if_pos rfl]
      rfl
    | some e =>
      by_cases hpe : p.firstJoin < e.firstJoin
      · show lookupKey (if p.firstJoin < e.firstJoin then updateKey m (buildKey p) p else m)
            (buildKey p) = if p.firstJoin < e.firstJoin then some p else some e
        rw [if_pos hpe, if_pos hpe]
        exact lookupKey_updateKey_self m (buildKey p) p e hm
      · show lookupKey (if p.firstJoin < e.firstJoin then updateKey m (buildKey p) p else m)
            (buildKey p) = if p.firstJoin < e.firstJoin then some p else some e
        rw [if_neg hpe, if_neg hpe]
        exact hm
  · rw [if_neg hk]
    cases hm : lookupKey m (buildKey p) with
    | none =>
      show lookupKey (m ++ [(buildKey p, p)]) k = lookupKey m k
      rw [lookupKey_append, lookupKey_cons, if_neg hk]
      cases lookupKey m k <;> rfl
    | some e =>
      by_cases hpe : p.firstJoin < e.firstJoin
      · show lookupKey (if p.firstJoin < e.firstJoin then updateKey m (buildKey p) p else m)
            k = lookupKey m k
        rw [if_pos hpe]
        exact lookupKey_updateKey_ne m (buildKey p) p k (fun h => hk h.symm)
      · show lookupKey (if p.firstJoin < e.firstJoin then updateKey m (buildKey p) p else m)
            k = lookupKey m k
        rw [if_neg hpe]

/-- The dedup fold over a row list computes, at every key, an entry of
minimal join time among the rows with that key. -/
theorem dedupFold_isMinEntry :
    ∀ (l l0 : List Participant) (m : List (String × Participant)) (k : String),
      IsMinEntry l0 k (lookupKey m k) →
      IsMinEntry (l0 ++ l) k (lookupKey (l.foldl dedupInsert m) k) := by
  intro l
  induction l with
  | nil => intro l0 m k h; simpa using h
  | cons p rest ih =>
    intro l0 m k h
    have hstep : IsMinEntry (l0 ++ [p]) k (lookupKey (dedupInsert m p) k) := by
      rw [dedupInsert_lookup]
      by_cases hk : buildKey p = k
      · rw [if_pos hk]
        cases hm : lookupKey m k with
        | none =>
          rw [hm] at h
          show IsMinEntry (l0 ++ [p]) k (some p)
          refine ⟨hk, List.mem_append_right _ (by simp), ?_⟩
          intro q hq hqk
          rcases List.mem_append.mp hq with hq0 | hq1
          · exact absurd hqk (h q hq0)
          · rw [List.mem_singleton.mp hq1]
        | some e =>
          rw [hm] at h
          obtain ⟨hek, hem, hemin⟩ := h
          show IsMinEntry (l0 ++ [p]) k
            (if p.firstJoin < e.firstJoin then some p else some e)
          by_cases hpe : p.firstJoin < e.firstJoin
          · rw [if_pos hpe]
            refine ⟨hk, List.mem_append_right _ (by simp), ?_⟩
            intro q hq hqk
            rcases List.mem_append.mp hq with hq0 | hq1
            · exact le_trans (le_of_lt hpe) (hemin q hq0 hqk)
            · rw [List.mem_singleton.mp hq1]
          · rw [if_neg hpe]
            refine ⟨hek, List.mem_append_left _ hem, ?_⟩
            intro q hq hqk
            rcases List.mem_append.mp hq with hq0 | hq1
            · exact hemin q hq0 hqk
            · rw [List.mem_singleton.mp hq1]
              exact not_lt.mp hpe
      · rw [if_neg hk]
        cases hm : lookupKey m k with
        | none =>
          rw [hm] at h
          show IsMinEntry (l0 ++ [p]) k none
          intro q hq
          rcases List.mem_append.mp hq with hq0 | hq1
          · exact h q hq0
          · rw [List.mem_singleton.mp hq1]
            exact hk
        | some e =>
          rw [hm] at h
          obtain ⟨hek, hem, hemin⟩ := h
          show IsMinEntry (l0 ++ [p]) k (some e)
          refine ⟨hek, List.mem_append_left _ hem, ?_⟩
          intro q hq hqk
          rcases List.mem_append.mp hq with hq0 | hq1
          · exact hemin q hq0 hqk
          · exact absurd ((List.mem_singleton.mp hq1) ▸ hqk) hk
    have hres := ih (l0 ++ [p]) (dedupInsert m p) k hstep
    rw [List.append_assoc, List.singleton_append] at hres
    exact hres

/-- At every key, the deduplicated file stores a row of minimal join time
among the rows that share that key. -/
theorem dedup_isMinEntry (l : List Participant) (k : String) :
    IsMinEntry l k (lookupKey (dedupParticipants l) k) := by
  have h0 : IsMinEntry [] k (lookupKey ([] : List (String × Participant)) k) := by
    intro q hq
    exact absurd hq (List.not_mem_nil q)
  have h := dedupFold_isMinEntry l [] [] k h0
  simpa using h

/-- Two minimal entries coincide when no two distinct same-key rows share a
join timestamp. -/
theorem isMinEntry_unique (l : List Participant) (k : String)
    (r1 r2 : Option Participant)
    (hdist : ∀ p ∈ l, ∀ q ∈ l,
      buildKey p = buildKey q → p.firstJoin = q.firstJoin → p = q)
    (h1 : IsMinEntry l k r1) (h2 : IsMinEntry l k r2) : r1 = r2 := by
  cases r1 with
  | none =>
    cases r2 with
    | none => rfl
    | some v => exact absurd h2.1 (h1 v h2.2.1)
  | some v =>
    cases r2 with
    | none => exact absurd h1.1 (h2 v h1.2.1)
    | some w =>
      obtain ⟨hv, hvm, hvmin⟩ := h1
      obtain ⟨hw, hwm, hwmin⟩ := h2
      have h3 : v.firstJoin ≤ w.firstJoin := hvmin w hwm hw
      have h4 : w.firstJoin ≤ v.firstJoin := hwmin v hvm hv
      have h5 := hdist v hvm w hwm (hv.trans hw.symm) (le_antisymm h3 h4)
      rw [h5]

/-- Minimal-entry facts transfer along permutations of the row list. -/
theorem isMinEntry_perm (l l' : List Participant) (k : String)
    (r : Option Participant) (hp : l.Perm l') (h : IsMinEntry l k r) :
    IsMinEntry l' k r := by
  cases r with
  | none =>
    intro q hq
    exact h q (hp.symm.subset hq)
  | some v =>
    obtain ⟨h1, h2, h3⟩ := h
    exact ⟨h1, hp.subset h2, fun q hq hqk => h3 q (hp.symm.subset hq) hqk⟩

/-- C4 counterexample: two rows with the same identity key and identical
join timestamps but different display names are kept by encounter order,
so the deduplicated participant set depends on the file's row order. -/
theorem dedup_perm_counterexample :
    lookupKey (dedupParticipants [tieP, tieQ]) "s" ≠
      lookupKey (dedupParticipants [tieQ, tieP]) "s" := by decide

/-- C4 (amended): among same-key rows a strictly earlier join always wins
(the later row is never retained), and when no two same-key rows share an
identical join timestamp the deduplicated participant set is invariant
under any permutation of the row order. -/
theorem dedup_earlier_wins_perm (l l' : List Participant) (hperm : l.Perm l')
    (hdist : ∀ p ∈ l, ∀ q ∈ l,
      buildKey p = buildKey q → p.firstJoin = q.firstJoin → p = q) :
    (∀ k, lookupKey (dedupParticipants l) k = lookupKey (dedupParticipants l') k) ∧
    (∀ p q, p ∈ l → q ∈ l → buildKey p = buildKey q → p.firstJoin < q.firstJoin →
      lookupKey (dedupParticipants l) (buildKey p) ≠ some q) := by
  constructor
  · intro k
    have h1 := dedup_isMinEntry l k
    have h2 := dedup_isMinEntry l' k
    have h2' := isMinEntry_perm l' l k _ hperm.symm h2
    exact isMinEntry_unique l k _ _ hdist h1 h2'
  · intro p q hp hq hkey hlt hsome
    have h1 := dedup_isMinEntry l (buildKey p)
    rw [hsome] at h1
    obtain ⟨_, _, hmin⟩ := h1
    exact absurd hlt (not_lt.mpr (hmin p hp rfl))

/-- Witness for the amended C4: with distinct join timestamps the dedup
result agrees across both row orders and never retains the later row. -/
theorem dedup_earlier_wins_perm_witness :
    lookupKey (dedupParticipants [dupEarly, dupLate]) "d" =
      lookupKey (dedupParticipants [dupLate, dupEarly]) "d" ∧
    lookupKey (dedupParticipants [dupEarly, dupLate]) "d" ≠ some dupLate :=
  ⟨(dedup_earlier_wins_perm [dupEarly, dupLate] [dupLate, dupEarly]
      (List.Perm.swap dupLate dupEarly []) (by decide)).1 "d",
   (dedup_earlier_wins_perm [dupEarly, dupLate] [dupLate, dupEarly]
      (List.Perm.swap dupLate dupEarly []) (by decide)).2 dupEarly dupLate
      (by decide) (by decide) (by decide) (by decide)⟩

/-- An earliest-join value is the join time of some participant. -/
theorem earliestJoin_exists :
    ∀ (ps : List Participant) (t : Int), earliestJoin ps = some t →
      ∃ p ∈ ps, p.firstJoin = t := by
  intro ps
  induction ps with
  | nil => intro t h; exact absurd h (by simp [earliestJoin])
  | cons p rest ih =>
    intro t h
    rw [earliestJoin] at h
    cases hr : earliestJoin rest with
    | none =>
      rw [hr] at h
      exact ⟨p, by simp, (Option.some.inj h)⟩
    | some t0 =>
      rw [hr] at h
      have hmin := Option.some.inj h
      rcases min_choice p.firstJoin t0 with hc | hc
      · exact ⟨p, by simp, hc.symm.trans hmin⟩
      · obtain ⟨q, hq, hqt⟩ := ih t0 hr
        exact ⟨q, by simp [hq], hqt.trans (hc.symm.trans hmin)⟩

/-- C5 counterexample: in a session spanning two dates whose first listed
participant is not the earliest join, the class-start instant the code
uses differs from the spec's earliest-join anchoring. -/
theorem session_class_start_counterexample :
    sessionClassStart valCfg [partB, partA] ≠ specClassStart valCfg [partB, partA] := by
  decide

/-- C5 (amended): the class-start instant is the configured time-of-day
combined with the date of the first participant in the parsed collection
(an order the hash map does not specify); whenever every join of the
session falls on a single date this coincides with the date of the
earliest recorded join, as the spec states. -/
theorem session_class_start_same_date (cfg : ConfigValues) (ps : List Participant)
    (hne : ps ≠ [])
    (hdate : ∀ p ∈ ps, ∀ q ∈ ps, dateOf p.firstJoin = dateOf q.firstJoin) :
    sessionClassStart cfg ps = specClassStart cfg ps := by
  cases ps with
  | nil => exact absurd rfl hne
  | cons p rest =>
    obtain ⟨t, ht⟩ : ∃ t, earliestJoin (p :: rest) = some t := by
      rw [earliestJoin]
      cases earliestJoin rest <;> exact ⟨_, rfl⟩
    obtain ⟨q, hq, hqt⟩ := earliestJoin_exists _ t ht
    show dateOf p.firstJoin * 86400 + cfg.classStart =
      dateOf ((earliestJoin (p :: rest)).getD 0) * 86400 + cfg.classStart
    rw [ht, Option.getD_some, ← hqt, hdate p (by simp) q hq]

/-- Witness for the amended C5: a single-date session anchors class start
exactly as the spec describes. -/
theorem session_class_start_same_date_witness :
    sessionClassStart valCfg [partC, partA] = specClassStart valCfg [partC, partA] :=
  session_class_start_same_date valCfg [partC, partA] (by decide) (by decide)

/-- With pairwise distinct keys, the first row found under a key is the
unique row carrying it. -/
theorem find?_key_of_mem (ps : List Participant) (hnd : (ps.map buildKey).Nodup)
    (p : Participant) (hp : p ∈ ps) (k : String) (hk : buildKey p = k) :
    ps.find? (fun q => buildKey q == k) = some p := by
  induction ps with
  | nil => exact absurd hp (List.not_mem_nil p)
  | cons a rest ih =>
    rw [List.map_cons, List.nodup_cons] at hnd
    rcases List.mem_cons.mp hp with hpa | hpr
    · subst hpa
      exact List.find?_cons_of_pos _ (by simp [hk])
    · by_cases ha : buildKey a = k
      · have : buildKey a ∈ rest.map buildKey := by
          rw [ha, ← hk]
          exact List.mem_map_of_mem buildKey hpr
        exact absurd this hnd.1
      · rw [List.find?_cons_of_neg _ (by simp [ha])]
        exact ih hnd.2 hpr

/-- Key search is permutation-invariant when the keys are pairwise
distinct. -/
theorem find?_key_perm (ps ps' : List Participant) (hperm : ps.Perm ps')
    (hnd : (ps.map buildKey).Nodup) (k : String) :
    ps.find? (fun q => buildKey q == k) = ps'.find? (fun q => buildKey q == k) := by
  cases hf : ps.find? (fun q => buildKey q == k) with
  | none =>
    have h := List.find?_eq_none.mp hf
    exact (List.find?_eq_none.mpr (fun x hx => h x (hperm.symm.subset hx))).symm
  | some p =>
    have hp := List.find?_some hf
    have hpm := List.mem_of_find?_eq_some hf
    have hnd' : (ps'.map buildKey).Nodup := ((hperm.map buildKey).nodup_iff).mp hnd
    rw [find?_key_of_mem ps' hnd' p (hperm.subset hpm) k (by simpa using hp)]

/-- One session step gives equal states on any two hash-iteration orders
of the same deduplicated, single-date participant set. -/
theorem processSession_perm (cfg : ConfigValues) (st : StudentsMap × Nat)
    (ps ps' : List Participant) (hperm : ps.Perm ps')
    (hnd : (ps.map buildKey).Nodup)
    (hdate : ∀ p ∈ ps, ∀ q ∈ ps, dateOf p.firstJoin = dateOf q.firstJoin) :
    processSession cfg st ps = processSession cfg st ps' := by
  cases ps with
  | nil =>
    have h0 := hperm.length_eq
    have : ps' = [] := by
      cases ps' with
      | nil => rfl
      | cons x xs => simp at h0
    rw [this]
  | cons p rest =>
    cases ps' with
    | nil =>
      have h0 := hperm.length_eq
      simp at h0
    | cons p' rest' =>
      have hnd' : ((p' :: rest').map buildKey).Nodup :=
        ((hperm.map buildKey).nodup_iff).mp hnd
      have hcs : sessionClassStart cfg (p :: rest) = sessionClassStart cfg (p' :: rest') := by
        show dateOf p.firstJoin * 86400 + cfg.classStart =
          dateOf p'.firstJoin * 86400 + cfg.classStart
        rw [hdate p (by simp) p' (hperm.symm.subset (by simp))]
      have hm : (p :: rest).foldl
            (processParticipant cfg (sessionClassStart cfg (p :: rest)) st.2) st.1
          = (p' :: rest').foldl
            (processParticipant cfg (sessionClassStart cfg (p' :: rest')) st.2) st.1 := by
        rw [← hcs]
        funext k
        rw [foldl_pp_eval cfg (sessionClassStart cfg (p :: rest)) st.2 (p :: rest) st.1 k hnd,
          foldl_pp_eval cfg (sessionClassStart cfg (p :: rest)) st.2 (p' :: rest') st.1 k hnd',
          find?_key_perm (p :: rest) (p' :: rest') hperm hnd k]
      have hback : ∀ M, backfillAbsent ((p :: rest).map buildKey) M
          = backfillAbsent ((p' :: rest').map buildKey) M := by
        intro M
        funext k
        rw [backfillAbsent_eval, backfillAbsent_eval]
        cases M k with
        | none => rfl
        | some r =>
          show (if k ∈ (p :: rest).map buildKey then some r
              else some { r with absent := r.absent + 1 }) =
            (if k ∈ (p' :: rest').map buildKey then some r
              else some { r with absent := r.absent + 1 })
          by_cases hk : k ∈ (p :: rest).map buildKey
          · rw [if_pos hk, if_pos ((hperm.map buildKey).mem_iff.mp hk)]
          · rw [if_neg hk, if_neg (fun hh => hk ((hperm.map buildKey).mem_iff.mpr hh))]
      show (backfillAbsent ((p :: rest).map buildKey)
          ((p :: rest).foldl
            (processParticipant cfg (sessionClassStart cfg (p :: rest)) st.2) st.1),
        st.2 + 1) =
        (backfillAbsent ((p' :: rest').map buildKey)
          ((p' :: rest').foldl
            (processParticipant cfg (sessionClassStart cfg (p' :: rest')) st.2) st.1),
        st.2 + 1)
      rw [hm, hback]

/-- C6 counterexample: the pipeline is not a function of the parsed
multiset alone — two hash-iteration orders of the same two-date session
give different counters to the same student. -/
theorem report_nondeterminism_counterexample :
    ((generateReport valCfg [[partA, partB]]).students "b").map (fun r => r.normal) ≠
      ((generateReport valCfg [[partB, partA]]).students "b").map (fun r => r.normal) := by
  decide

/-- C6 (amended): two runs over the same parsed sessions — equal
per-session participant multisets presented in any hash-iteration orders —
produce identical reports (same student map, counters, scores, session
count) provided sessions carry pairwise-distinct keys (per-file dedup) and
every session's joins fall on one date; without the single-date proviso
the anchor date may differ between runs. -/
theorem report_deterministic (cfg : ConfigValues) :
    ∀ (sessions sessions' : List (List Participant)),
      List.Forall₂ List.Perm sessions sessions' →
      (∀ s ∈ sessions, (s.map buildKey).Nodup) →
      (∀ s ∈ sessions, ∀ p ∈ s, ∀ q ∈ s, dateOf p.firstJoin = dateOf q.firstJoin) →
      generateReport cfg sessions = generateReport cfg sessions' := by
  have h : ∀ (sessions sessions' : List (List Participant)),
      List.Forall₂ List.Perm sessions sessions' →
      ∀ (st : StudentsMap × Nat),
      (∀ s ∈ sessions, (s.map buildKey).Nodup) →
      (∀ s ∈ sessions, ∀ p ∈ s, ∀ q ∈ s, dateOf p.firstJoin = dateOf q.firstJoin) →
      sessions.foldl (processSession cfg) st = sessions'.foldl (processSession cfg) st := by
    intro sessions sessions' hf
    induction hf with
    | nil => intro st _ _; rfl
    | cons hss htail ih =>
      intro st hnd hdate
      rw [List.foldl_cons, List.foldl_cons,
        processSession_perm cfg st _ _ hss (hnd _ (by simp)) (hdate _ (by simp))]
      exact ih (processSession cfg st _)
        (fun s hs => hnd s (List.mem_cons_of_mem _ hs))
        (fun s hs => hdate s (List.mem_cons_of_mem _ hs))
  intro sessions sessions' hperm hnd hdate
  unfold generateReport aggregateSessions
  rw [h sessions sessions' hperm (emptyStudents, 0) hnd hdate]

/-- Witness for the amended C6: two orders of a single-date session give
the same report. -/
theorem report_deterministic_witness :
    generateReport valCfg [[partA, partC]] = generateReport valCfg [[partC, partA]] :=
  report_deterministic valCfg [[partA, partC]] [[partC, partA]]
    (List.Forall₂.cons (List.Perm.swap partC partA []) List.Forall₂.nil)
    (by decide) (by decide)

/-- A row parsed against a header without "First Join" is skipped. -/
theorem parseParticipantRow_no_join (pd : String → Option Int) (h r : List String)
    (hj : "First Join" ∉ h) :
    parseParticipantRow pd h r = Except.ok none := by
  have hfi : h.findIdx? (fun c => c == "First Join") = none := by
    rw [List.findIdx?_eq_none_iff]
    intro c hc
    simp only [beq_eq_false_iff_ne, ne_eq]
    intro hh
    exact hj (hh ▸ hc)
  simp only [parseParticipantRow, hfi]
  cases h.findIdx? (fun c => c == "Name") <;> rfl

/-- Once a header without "First Join" is installed, the record loop
accumulates nothing and never errors. -/
theorem parseRecordsAux_no_join (pd : String → Option Int) (h : List String)
    (hj : "First Join" ∉ h) :
    ∀ (rows : List (List String)) (acc : List (String × Participant)),
      parseRecordsAux pd (some h) acc rows = Except.ok acc := by
  intro rows
  induction rows with
  | nil => intro acc; rfl
  | cons r rest ih =>
    intro acc
    show (match parseParticipantRow pd h r with
      | Except.error e => Except.error e
      | Except.ok none => parseRecordsAux pd (some h) acc rest
      | Except.ok (some p) => parseRecordsAux pd (some h) (dedupInsert acc p) rest) =
      Except.ok acc
    rw [parseParticipantRow_no_join pd h r hj]
    exact ih acc

/-- Before a header is found, rows without a "Name" cell are skipped, and a
header lacking "First Join" never yields participants. -/
theorem parseRecordsAux_headerless :
    ∀ (rows : List (List String)) (pd : String → Option Int)
      (acc : List (String × Participant)),
      (∀ hd, findHeader rows = some hd → "First Join" ∉ hd) →
      parseRecordsAux pd none acc rows = Except.ok acc := by
  intro rows
  induction rows with
  | nil => intro pd acc _; rfl
  | cons r rest ih =>
    intro pd acc hh
    by_cases hr : r.any (fun c => c == "Name") = true
    · have hhd : findHeader (r :: rest) = some (r.map strTrim) := by
        unfold findHeader
        rw [List.find?_cons_of_pos (p := fun row => row.any fun c => c == "Name") rest hr]
        rfl
      have hstep : parseRecordsAux pd none acc (r :: rest) =
          parseRecordsAux pd (some (r.map strTrim)) acc rest := by
        show (if r.any (fun c => c == "Name") then
            parseRecordsAux pd (some (r.map strTrim)) acc rest
          else parseRecordsAux pd none acc rest) = _
        rw [if_pos hr]
      rw [hstep]
      exact parseRecordsAux_no_join pd (r.map strTrim) (hh (r.map strTrim) hhd) rest acc
    · have hstep : parseRecordsAux pd none acc (r :: rest) =
          parseRecordsAux pd none acc rest := by
        show (if r.any (fun c => c == "Name") then
            parseRecordsAux pd (some (r.map strTrim)) acc rest
          else parseRecordsAux pd none acc rest) = _
        rw [if_neg hr]
      rw [hstep]
      refine ih pd acc (fun hd hhd => hh hd ?_)
      unfold findHeader at hhd ⊢
      rw [List.find?_cons_of_neg (p := fun row => row.any fun c => c == "Name") rest hr]
      exact hhd

/-- C7: when the header row (the first row containing a "Name" cell) lacks
"First Join" — and likewise when no row contains "Name" at all, so no
header exists — parsing yields zero participants without an error, and
the resulting empty session leaves both the student map and the
`sessions_processed` counter of the aggregator untouched. -/
theorem missing_header_empty (pd : String → Option Int) (rows : List (List String))
    (h : ∀ hd, findHeader rows = some hd → "First Join" ∉ hd) :
    parseCsvParticipants pd rows = Except.ok [] ∧
    (∀ (cfg : ConfigValues) (st : StudentsMap × Nat),
      processSession cfg st (sessionParticipants []) = st) :=
  ⟨parseRecordsAux_headerless rows pd [] h, fun _ _ => rfl⟩

/-- Witness for C7: a file whose header has "Name" and "Email" but no
"First Join" parses to zero participants. -/
theorem missing_header_empty_witness :
    parseCsvParticipants (fun _ => some 0) rowsNoJoin = Except.ok [] :=
  (missing_header_empty (fun _ => some 0) rowsNoJoin (by
    intro hd hhd
    have hfh : findHeader rowsNoJoin = some ["Name", "Email"] := by rfl
    rw [hfh] at hhd
    have heq := Option.some.inj hhd
    subst heq
    decide)).1

/-- Cascade form of `parse_config`: the first invalid field, in declaration
order, determines the error. -/
theorem parseConfig_eq (ext : ExternalParsers) (cfg : AttendanceConfig) :
    parseConfig ext cfg =
      match ext.parseTimeHM (strTrim cfg.classStart) with
      | none => Except.error ("Invalid time format: " ++ cfg.classStart ++ ". Use HH:MM.")
      | some s =>
        match ext.parseTimeHM (strTrim cfg.classEnd) with
        | none => Except.error ("Invalid time format: " ++ cfg.classEnd ++ ". Use HH:MM.")
        | some e =>
          if e ≤ s then Except.error "Class end time must be after the start time."
          else
            match ext.parseI64 (strTrim cfg.lateMinutes) with
            | none => Except.error "Late minutes must be a number."
            | some lm =>
              match ext.parseI64 (strTrim cfg.absentMinutes) with
              | none => Except.error "Absent minutes must be a number."
              | some am =>
                match ext.parseF32 (strTrim cfg.totalPoints) with
                | none => Except.error "Total points must be a number."
                | some tp =>
                  match ext.parseF32 (strTrim cfg.latePenalty) with
                  | none => Except.error "Late penalty must be a number."
                  | some lp =>
                    match ext.parseF32 (strTrim cfg.absentPenalty) with
                    | none => Except.error "Absent penalty must be a number."
                    | some ap =>
                      Except.ok { classStart := s, lateMinutes := lm,
                                  absentMinutes := am, totalPoints := tp,
                                  latePenalty := lp, absentPenalty := ap } := by
  unfold parseConfig parseTimeField parseFloatField
  cases ext.parseTimeHM (strTrim cfg.classStart) with
  | none => rfl
  | some s =>
  cases ext.parseTimeHM (strTrim cfg.classEnd) with
  | none => rfl
  | some e =>
  dsimp only
  by_cases hse : e ≤ s
  · rw [if_pos hse, if_pos hse]
  · rw [if_neg hse, if_neg hse]
    cases ext.parseI64 (strTrim cfg.lateMinutes) with
    | none => rfl
    | some lm =>
    cases ext.parseI64 (strTrim cfg.absentMinutes) with
    | none => rfl
    | some am =>
    cases ext.parseF32 (strTrim cfg.totalPoints) with
    | none => rfl
    | some tp =>
    cases ext.parseF32 (strTrim cfg.latePenalty) with
    | none => rfl
    | some lp =>
    cases ext.parseF32 (strTrim cfg.absentPenalty) with
    | none => rfl
    | some ap => rfl

/-- C9 counterexample: an invalid class-start and an invalid class-end
yield the identical error message, so the message does not name which
field is at fault (the two raw configurations differ exactly in which
time field is invalid). -/
theorem parse_config_message_counterexample :
    parseConfig sampleParsers rawCfgBadStart = parseConfig sampleParsers rawCfgBadEnd ∧
    parseConfig sampleParsers rawCfgBadStart =
      Except.error "Invalid time format: bad. Use HH:MM." ∧
    rawCfgBadStart.classStart ≠ rawCfgBadEnd.classStart ∧
    rawCfgBadStart.classEnd ≠ rawCfgBadEnd.classEnd :=
  ⟨by rfl, by rfl, by decide, by decide⟩

/-- C9 (amended): configuration parsing validates the fields in
declaration order and aborts on the first invalid one; the numeric-field
messages name the offending field, while an invalid time produces a
message quoting the offending text but not saying which of the two time
fields failed; on success every field of the returned configuration is the
parse of its input, so no partial configuration is ever returned. -/
theorem parse_config_first_error (ext : ExternalParsers) (cfg : AttendanceConfig) :
    (ext.parseTimeHM (strTrim cfg.classStart) = none →
      parseConfig ext cfg = Except.error
        ("Invalid time format: " ++ cfg.classStart ++ ". Use HH:MM.")) ∧
    (∀ s, ext.parseTimeHM (strTrim cfg.classStart) = some s →
      ext.parseTimeHM (strTrim cfg.classEnd) = none →
      parseConfig ext cfg = Except.error
        ("Invalid time format: " ++ cfg.classEnd ++ ". Use HH:MM.")) ∧
    (∀ s e, ext.parseTimeHM (strTrim cfg.classStart) = some s →
      ext.parseTimeHM (strTrim cfg.classEnd) = some e → e ≤ s →
      parseConfig ext cfg =
        Except.error "Class end time must be after the start time.") ∧
    (∀ s e, ext.parseTimeHM (strTrim cfg.classStart) = some s →
      ext.parseTimeHM (strTrim cfg.classEnd) = some e → ¬ e ≤ s →
      ext.parseI64 (strTrim cfg.lateMinutes) = none →
      parseConfig ext cfg = Except.error "Late minutes must be a number.") ∧
    (∀ s e lm, ext.parseTimeHM (strTrim cfg.classStart) = some s →
      ext.parseTimeHM (strTrim cfg.classEnd) = some e → ¬ e ≤ s →
      ext.parseI64 (strTrim cfg.lateMinutes) = some lm →
      ext.parseI64 (strTrim cfg.absentMinutes) = none →
      parseConfig ext cfg = Except.error "Absent minutes must be a number.") ∧
    (∀ s e lm am, ext.parseTimeHM (strTrim cfg.classStart) = some s →
      ext.parseTimeHM (strTrim cfg.classEnd) = some e → ¬ e ≤ s →
      ext.parseI64 (strTrim cfg.lateMinutes) = some lm →
      ext.parseI64 (strTrim cfg.absentMinutes) = some am →
      ext.parseF32 (strTrim cfg.totalPoints) = none →
      parseConfig ext cfg = Except.error "Total points must be a number.") ∧
    (∀ s e lm am tp, ext.parseTimeHM (strTrim cfg.classStart) = some s →
      ext.parseTimeHM (strTrim cfg.classEnd) = some e → ¬ e ≤ s →
      ext.parseI64 (strTrim cfg.lateMinutes) = some lm →
      ext.parseI64 (strTrim cfg.absentMinutes) = some am →
      ext.parseF32 (strTrim cfg.totalPoints) = some tp →
      ext.parseF32 (strTrim cfg.latePenalty) = none →
      parseConfig ext cfg = Except.error "Late penalty must be a number.") ∧
    (∀ s e lm am tp lp, ext.parseTimeHM (strTrim cfg.classStart) = some s →
      ext.parseTimeHM (strTrim cfg.classEnd) = some e → ¬ e ≤ s →
      ext.parseI64 (strTrim cfg.lateMinutes) = some lm →
      ext.parseI64 (strTrim cfg.absentMinutes) = some am →
      ext.parseF32 (strTrim cfg.totalPoints) = some tp →
      ext.parseF32 (strTrim cfg.latePenalty) = some lp →
      ext.parseF32 (strTrim cfg.absentPenalty) = none →
      parseConfig ext cfg = Except.error "Absent penalty must be a number.") ∧
    (∀ v, parseConfig ext cfg = Except.ok v →
      ext.parseTimeHM (strTrim cfg.classStart) = some v.classStart ∧
      ext.parseI64 (strTrim cfg.lateMinutes) = some v.lateMinutes ∧
      ext.parseI64 (strTrim cfg.absentMinutes) = some v.absentMinutes ∧
      ext.parseF32 (strTrim cfg.totalPoints) = some v.totalPoints ∧
      ext.parseF32 (strTrim cfg.latePenalty) = some v.latePenalty ∧
      ext.parseF32 (strTrim cfg.absentPenalty) = some v.absentPenalty) := by
  refine ⟨?_, ?_, ?_, ?_, ?_, ?_, ?_, ?_, ?_⟩
  · intro h1
    rw [parseConfig_eq, h1]
  · intro s h1 h2
    rw [parseConfig_eq, h1, h2]
  · intro s e h1 h2 hle
    rw [parseConfig_eq, h1, h2]
    dsimp only
    rw [if_pos hle]
  · intro s e h1 h2 hle h3
    rw [parseConfig_eq, h1, h2, h3]
    dsimp only
    rw [if_neg hle]
  · intro s e lm h1 h2 hle h3 h4
    rw [parseConfig_eq, h1, h2, h3, h4]
    dsimp only
    rw [if_neg hle]
  · intro s e lm am h1 h2 hle h3 h4 h5
    rw [parseConfig_eq, h1, h2, h3, h4, h5]
    dsimp only
    rw [if_neg hle]
  · intro s e lm am tp h1 h2 hle h3 h4 h5 h6
    rw [parseConfig_eq, h1, h2, h3, h4, h5, h6]
    dsimp only
    rw [if_neg hle]
  · intro s e lm am tp lp h1 h2 hle h3 h4 h5 h6 h7
    rw [parseConfig_eq, h1, h2, h3, h4, h5, h6, h7]
    dsimp only
    rw [if_neg hle]
  · intro v hv
    rw [parseConfig_eq] at hv
    cases h1 : ext.parseTimeHM (strTrim cfg.classStart) with
    | none => rw [h1] at hv; simp at hv
    | some s =>
    rw [h1] at hv
    cases h2 : ext.parseTimeHM (strTrim cfg.classEnd) with
    | none => rw [h2] at hv; simp at hv
    | some e =>
    rw [h2] at hv
    dsimp only at hv
    by_cases hse : e ≤ s
    · rw [if_pos hse] at hv
      simp at hv
    · rw [if_neg hse] at hv
      cases h3 : ext.parseI64 (strTrim cfg.lateMinutes) with
      | none => rw [h3] at hv; simp at hv
      | some lm =>
      rw [h3] at hv
      cases h4 : ext.parseI64 (strTrim cfg.absentMinutes) with
      | none => rw [h4] at hv; simp at hv
      | some am =>
      rw [h4] at hv
      cases h5 : ext.parseF32 (strTrim cfg.totalPoints) with
      | none => rw [h5] at hv; simp at hv
      | some tp =>
      rw [h5] at hv
      cases h6 : ext.parseF32 (strTrim cfg.latePenalty) with
      | none => rw [h6] at hv; simp at hv
      | some lp =>
      rw [h6] at hv
      cases h7 : ext.parseF32 (strTrim cfg.absentPenalty) with
      | none => rw [h7] at hv; simp at hv
      | some ap =>
      rw [h7] at hv
      have hv2 : ConfigValues.mk s lm am tp lp ap = v := Except.ok.inj hv
      subst hv2
      exact ⟨rfl, rfl, rfl, rfl, rfl, rfl⟩

/-- Witness for the amended C9: an invalid late-minutes field with valid
times fails with the message naming late minutes. -/
theorem parse_config_first_error_witness :
    parseConfig sampleParsers rawCfgBadLate =
      Except.error "Late minutes must be a number." :=
  (parse_config_first_error sampleParsers rawCfgBadLate).2.2.2.1 48600 54000
    (by rfl) (by rfl) (by decide) (by rfl)

/-- Counter updates never touch the name field. -/
theorem applyStatus_name (r : StudentRecord) (s : AttendanceStatus) :
    (applyStatus r s).name = r.name := by cases s <;> rfl

/-- Counter updates never touch the surname field. -/
theorem applyStatus_surname (r : StudentRecord) (s : AttendanceStatus) :
    (applyStatus r s).surname = r.surname := by cases s <;> rfl

/-- Counter updates never touch the id field. -/
theorem applyStatus_id (r : StudentRecord) (s : AttendanceStatus) :
    (applyStatus r s).id = r.id := by cases s <;> rfl

/-- Counter updates never touch the email field. -/
theorem applyStatus_email (r : StudentRecord) (s : AttendanceStatus) :
    (applyStatus r s).email = r.email := by cases s <;> rfl

/-- One participant step preserves the identity-frame invariant. -/
theorem processParticipant_identity (cfg : ConfigValues) (cs : Int) (sp : Nat)
    (m : StudentsMap) (p : Participant) (pre : List Participant)
    (hinv : IdentityInv pre m) :
    IdentityInv (pre ++ [p]) (processParticipant cfg cs sp m p) := by
  intro k
  have heval : processParticipant cfg cs sp m p k =
      if k = buildKey p then
        some (applyStatus ((m (buildKey p)).getD (initRecord p sp))
          (classifyAttendance p cs cfg))
      else m k := rfl
  constructor
  · intro r hr
    rw [heval] at hr
    by_cases hk : k = buildKey p
    · rw [if_pos hk] at hr
      have hrr : applyStatus ((m (buildKey p)).getD (initRecord p sp))
          (classifyAttendance p cs cfg) = r := Option.some.inj hr
      subst hrr
      cases hm : m (buildKey p) with
      | some r0 =>
        obtain ⟨p0, hp0, hf⟩ := (hinv (buildKey p)).1 r0 hm
        refine ⟨p0, ?_, ?_, ?_, ?_, ?_⟩
        · rw [List.find?_append, hk, hp0]
          rfl
        · rw [applyStatus_name, Option.getD_some]
          exact hf.1
        · rw [applyStatus_surname, Option.getD_some]
          exact hf.2.1
        · rw [applyStatus_id, Option.getD_some]
          exact hf.2.2.1
        · rw [applyStatus_email, Option.getD_some]
          exact hf.2.2.2
      | none =>
        have hnone := (hinv (buildKey p)).2 hm
        refine ⟨p, ?_, ?_, ?_, ?_, ?_⟩
        · rw [List.find?_append, hk, hnone]
          rw [List.find?_cons_of_pos _ (by simp)]
          rfl
        · rw [applyStatus_name, Option.getD_none]
          rfl
        · rw [applyStatus_surname, Option.getD_none]
          rfl
        · rw [applyStatus_id, Option.getD_none]
          rfl
        · rw [applyStatus_email, Option.getD_none]
          rfl
    · rw [if_neg hk] at hr
      obtain ⟨p0, hp0, hf⟩ := (hinv k).1 r hr
      refine ⟨p0, ?_, hf.1, hf.2.1, hf.2.2.1, hf.2.2.2⟩
      rw [List.find?_append, hp0]
      rfl
  · intro hnone
    rw [heval] at hnone
    by_cases hk : k = buildKey p
    · rw [if_pos hk] at hnone
      exact absurd hnone (by simp)
    · rw [if_neg hk] at hnone
      have h0 := (hinv k).2 hnone
      rw [List.find?_append, h0]
      show [p].find? (fun q => buildKey q == k) = none
      rw [List.find?_cons_of_neg _ (by
        simp only [beq_iff_eq]
        exact fun hh => hk hh.symm)]
      rfl

/-- The participant fold preserves the identity-frame invariant, extending
the processed stream by the session's participants. -/
theorem foldl_pp_identity (cfg : ConfigValues) (cs : Int) (sp : Nat) :
    ∀ (ps pre : List Participant) (m : StudentsMap),
      IdentityInv pre m →
      IdentityInv (pre ++ ps) (ps.foldl (processParticipant cfg cs sp) m) := by
  intro ps
  induction ps with
  | nil => intro pre m h; simpa using h
  | cons p rest ih =>
    intro pre m h
    have hres := ih (pre ++ [p]) (processParticipant cfg cs sp m p)
      (processParticipant_identity cfg cs sp m p pre h)
    rw [List.append_assoc, List.singleton_append] at hres
    rw [List.foldl_cons]
    exact hres

/-- The absence backfill preserves the identity-frame invariant. -/
theorem backfillAbsent_identity (keys : List String) (m : StudentsMap)
    (pre : List Participant) (h : IdentityInv pre m) :
    IdentityInv pre (backfillAbsent keys m) := by
  intro k
  constructor
  · intro r hr
    rw [backfillAbsent_eval] at hr
    cases hm : m k with
    | none =>
      simp only [hm] at hr
      exact absurd hr (by simp)
    | some r0 =>
      simp only [hm] at hr
      obtain ⟨p0, hp0, hf⟩ := (h k).1 r0 hm
      by_cases hin : k ∈ keys
      · rw [if_pos hin] at hr
        have hrr : r0 = r := Option.some.inj hr
        subst hrr
        exact ⟨p0, hp0, hf.1, hf.2.1, hf.2.2.1, hf.2.2.2⟩
      · rw [if_neg hin] at hr
        have hrr : { r0 with absent := r0.absent + 1 } = r := Option.some.inj hr
        subst hrr
        exact ⟨p0, hp0, hf.1, hf.2.1, hf.2.2.1, hf.2.2.2⟩
  · intro hnone
    rw [backfillAbsent_eval] at hnone
    cases hm : m k with
    | none => exact (h k).2 hm
    | some r0 =>
      simp only [hm] at hnone
      by_cases hin : k ∈ keys
      · rw [if_pos hin] at hnone
        exact absurd hnone (by simp)
      · rw [if_neg hin] at hnone
        exact absurd hnone (by simp)

/-- One session step preserves the identity-frame invariant. -/
theorem processSession_identity (cfg : ConfigValues) (st : StudentsMap × Nat)
    (ps pre : List Participant) (h : IdentityInv pre st.1) :
    IdentityInv (pre ++ ps) (processSession cfg st ps).1 := by
  by_cases hemp : ps.isEmpty = true
  · have hps : ps = [] := by
      cases ps with
      | nil => rfl
      | cons a l => simp at hemp
    subst hps
    have h1 : (processSession cfg st []).1 = st.1 := by
      rw [processSession, if_pos hemp]
    rw [h1]
    simpa using h
  · have h1 : (processSession cfg st ps).1 =
        backfillAbsent (ps.map buildKey)
          (ps.foldl (processParticipant cfg (sessionClassStart cfg ps) st.2) st.1) := by
      rw [processSession, if_neg hemp]
    rw [h1]
    exact backfillAbsent_identity _ _ _
      (foldl_pp_identity cfg (sessionClassStart cfg ps) st.2 ps pre st.1 h)

/-- The session fold preserves the identity-frame invariant over the
concatenated stream of all processed participants. -/
theorem foldl_sessions_identity (cfg : ConfigValues) :
    ∀ (sessions : List (List Participant)) (pre : List Participant)
      (st : StudentsMap × Nat),
      IdentityInv pre st.1 →
      IdentityInv (pre ++ sessions.flatten) (sessions.foldl (processSession cfg) st).1 := by
  intro sessions
  induction sessions with
  | nil => intro pre st h; simpa using h
  | cons s rest ih =>
    intro pre st h
    rw [List.foldl_cons]
    have hres := ih (pre ++ s) (processSession cfg st s)
      (processSession_identity cfg st s pre h)
    rw [List.append_assoc] at hres
    rw [List.flatten_cons]
    exact hres

/-- The final scoring pass preserves the identity-frame invariant. -/
theorem scoreStudents_identity (cfg : ConfigValues) (m : StudentsMap)
    (pre : List Participant) (h : IdentityInv pre m) :
    IdentityInv pre (scoreStudents cfg m) := by
  intro k
  constructor
  · intro r hr
    have hex : ∃ r0, m k = some r0 ∧ { r0 with score := calculateScore r0 cfg } = r := by
      simpa [scoreStudents, Option.map_eq_some'] using hr
    obtain ⟨r0, hm, hre⟩ := hex
    subst hre
    obtain ⟨p0, hp0, hf⟩ := (h k).1 r0 hm
    exact ⟨p0, hp0, hf.1, hf.2.1, hf.2.2.1, hf.2.2.2⟩
  · intro hnone
    cases hc : m k with
    | none => exact (h k).2 hc
    | some r0 =>
      have hsc : scoreStudents cfg m k = some { r0 with score := calculateScore r0 cfg } := by
        show (m k).map _ = _
        rw [hc]
        rfl
      rw [hsc] at hnone
      exact absurd hnone (by simp)

/-- C10: every final record's name, surname, id and email equal those of
the first participant carrying its key in processing order (sessions in
order, participants in session order); later sessions presenting different
display names or emails for the same key never modify them — aggregation
changes only the counters and the score. -/
theorem identity_frame (cfg : ConfigValues) (sessions : List (List Participant))
    (k : String) (r : StudentRecord)
    (hr : (generateReport cfg sessions).students k = some r) :
    ∃ p, sessions.flatten.find? (fun q => buildKey q == k) = some p ∧
      r.name = p.name ∧ r.surname = p.surname ∧ r.id = p.id ∧ r.email = p.email := by
  have hinv0 : IdentityInv [] emptyStudents := by
    intro k0
    exact ⟨fun r0 hr0 => absurd hr0 (by simp [emptyStudents]), fun _ => rfl⟩
  have hagg := foldl_sessions_identity cfg sessions [] (emptyStudents, 0) hinv0
  have hfinal := scoreStudents_identity cfg (aggregateSessions cfg sessions).1
    (([] : List Participant) ++ sessions.flatten) hagg
  obtain ⟨p, hp, hf⟩ := (hfinal k).1 r hr
  rw [List.nil_append] at hp
  exact ⟨p, hp, hf⟩

/-- Witness for C10: in a one-session run the record at key "a" carries
exactly the identity fields of the first sighting of that key. -/
theorem identity_frame_witness :
    (generateReport valCfg [[partA]]).students "a" = some recA ∧
    ∃ p, [[partA]].flatten.find? (fun q => buildKey q == "a") = some p ∧
      recA.name = p.name ∧ recA.surname = p.surname ∧ recA.id = p.id ∧
      recA.email = p.email :=
  ⟨by rfl, identity_frame valCfg [[partA]] "a" recA (by rfl)⟩

end Presence

